import Mathlib

/-!
# any_worker: the registry of named workers (`WorkerManager.cpp`)

A shallow embedding of `any_worker::WorkerManager`.  Every member function of
`src/any_worker/src/WorkerManager.cpp` is a Lean function of the same name that
maps the manager object before the call to the object after the call, together
with the value returned and the sequence of observable events of the call
(mutex acquire/release, structural accesses to `workers_`, `MELO_ERROR`
reports, member calls on stored workers, destructor runs).

`Worker`, `WorkerOptions` and the header of `WorkerManager` are not among the
sources.  What `WorkerManager.cpp` uses of them is taken as a parameter
(`WorkerApi`); the theorems hold for every such implementation.  A reference
implementation written after §3 and §4.2 of the specification (`Worker`,
`specWorker`) is used where a concrete instance is needed.
-/

namespace any_worker

/-! ## Observable events -/

/-- Kinds of structural access to the container `workers_`. -/
inductive Access where
  | find
  | emplace
  | iterate
  | clear
  | erase
  deriving DecidableEq, Repr

/-- Events of one call of a `WorkerManager` member function, in program order.
The type `τ` stands for the C++ `double` of a timestep; it is only passed on,
never computed with.
* `acquire` / `release`: construction of `std::lock_guard<std::mutex> lock(mutexWorkers_)`
  and its destruction at scope exit;
* `access k`: a structural access to `workers_`;
* `error fmt name`: `MELO_ERROR(fmt, name.c_str())`;
* `start`, `stop`, `setTimestep`, `isDestructible`: a member call on the worker stored
  under `name` (`priority = none` is the call `start()` without an argument);
* `destroy name`: the destructor of the worker stored under `name` runs because its
  entry leaves `workers_`. -/
inductive Event (τ : Type) where
  | acquire
  | release
  | access (kind : Access)
  | error (format : String) (name : String)
  | start (name : String) (priority : Option Int)
  | stop (name : String) (wait : Bool)
  | setTimestep (name : String) (timeStep : τ)
  | isDestructible (name : String)
  | destroy (name : String)
  deriving DecidableEq, Repr

/-- Whether every structural access of an event sequence happens while the
mutex is held; `held` is the state of the mutex before the first event. -/
def lockedThroughout {τ : Type} : Bool → List (Event τ) → Bool
  | _, [] => true
  | _, Event.acquire :: es => lockedThroughout true es
  | _, Event.release :: es => lockedThroughout false es
  | held, Event.access _ :: es => held && lockedThroughout held es
  | held, _ :: es => lockedThroughout held es

/-- Whether an event is a `start` or a `stop` of some worker. -/
def Event.isStartOrStop {τ : Type} : Event τ → Bool
  | Event.start _ _ => true
  | Event.stop _ _ => true
  | _ => false

/-- Whether an event is an operation on the mutex. -/
def Event.isMutexOp {τ : Type} : Event τ → Bool
  | Event.acquire => true
  | Event.release => true
  | _ => false

/-! ## The collaborators of `WorkerManager.cpp` -/

/-- The part of `WorkerOptions` (type `Opt`) and of `Worker` (type `W`) that
`WorkerManager.cpp` uses; their declarations are not among the sources, so they
are parameters of the embedding.
* `name_`, `autostart_`: the members `options.name_`, `options.autostart_`;
* `construct`: `Worker(options)`;
* `start w p`: `w.start(p)` (`w.start()` for `p = none`), the worker afterwards and the
  boolean returned;
* `stop w wait`: `w.stop(wait)`; `setTimestep w t`: `w.setTimestep(t)`;
* `isDestructible w`: `w.isDestructible()`;
* `destroy w`: the worker as its destructor leaves it;
* `getName w`: the name the worker was constructed with;
* `threadLive w`: whether the worker owns a thread that has not exited.

A member call acts on the worker it is made on and on no other (§5: "no two Workers
share mutable state").  What a worker's own thread does to it between two calls of
the manager is not part of a call. -/
structure WorkerApi (Opt W τ : Type) where
  name_ : Opt → String
  autostart_ : Opt → Bool
  construct : Opt → W
  start : W → Option Int → W × Bool
  stop : W → Bool → W
  setTimestep : W → τ → W
  isDestructible : W → Bool
  destroy : W → W
  getName : W → String
  threadLive : W → Bool

/-! ## The container `workers_` -/

/-- Modelled from the spec: the type of `workers_` is declared in
`WorkerManager.hpp`, which is not among the sources.  §3: "a mapping from name to
Worker, keys unique, insertion order irrelevant".  It is the list of its entries
in iteration order; a new entry is put at the end. -/
abbrev WorkerMap (W : Type) := List (String × W)

namespace WorkerMap

variable {W : Type}

/-- The keys in iteration order. -/
def keys (m : WorkerMap W) : List String :=
  m.map Prod.fst

/-- Model of `workers_.find(name)`: the element the returned iterator points to,
`none` for `workers_.end()`. -/
def find : WorkerMap W → String → Option W
  | [], _ => none
  | (key, worker) :: rest, name => if key = name then some worker else find rest name

/-- The result of `emplace`: the container afterwards, the element the returned
iterator points to, and the flag `second`. -/
structure Emplaced (W : Type) where
  map : WorkerMap W
  element : W
  inserted : Bool

/-- Model of `workers_.emplace(name, worker)`: nothing is inserted when the key is
present, and the iterator then points to the element already there. -/
def emplace (m : WorkerMap W) (name : String) (worker : W) : Emplaced W :=
  match find m name with
  | some existing => { map := m, element := existing, inserted := false }
  | none => { map := m ++ [(name, worker)], element := worker, inserted := true }

/-- Writing through an iterator obtained for `name`: the element stored under
`name` becomes `worker`; keys and all other elements stay. -/
def assign : WorkerMap W → String → W → WorkerMap W
  | [], _, _ => []
  | (key, old) :: rest, name, worker =>
    if key = name then (key, worker) :: rest else (key, old) :: assign rest name worker

end WorkerMap

/-! ## The manager -/

/-- The data member `workers_` of `WorkerManager`.  The member `mutexWorkers_` is
represented by the `acquire` and `release` events of the calls: a call that
returns has released the mutex, so it is free between two calls. -/
structure WorkerManager (W : Type) where
  workers_ : WorkerMap W
  deriving DecidableEq

/-- A call that returned: the object afterwards, the value returned, the events of
the call, and the workers that left `workers_`, each as its destructor left it. -/
structure Returned (W τ α : Type) where
  self : WorkerManager W
  value : α
  events : List (Event τ)
  destroyed : List (String × W)
  deriving DecidableEq

/-- How a call ends: it returns, or it dereferences the past-the-end iterator
`workers_.end()`, after which the C++ standard defines no behaviour; `events` are
the events up to that point. -/
inductive Outcome (W τ α : Type) where
  | returned (r : Returned W τ α)
  | undefinedBehaviour (events : List (Event τ))
  deriving DecidableEq

section Operations

variable {Opt W τ : Type}

/-- `WorkerManager::WorkerManager()`: `workers_()` is the empty container. -/
def WorkerManager.ctor : WorkerManager W :=
  { workers_ := [] }

/-- `WorkerManager::addWorker(const WorkerOptions& options)`, lines 58-69.  The
temporary `Worker(options)` of line 60 is never started; only what happens to
workers stored in `workers_` is recorded in `events` and `destroyed`. -/
def addWorker (api : WorkerApi Opt W τ) (self : WorkerManager W) (options : Opt) :
    Returned W τ Bool :=
  let insertedElement :=
    WorkerMap.emplace self.workers_ (api.name_ options) (api.construct options)
  if !insertedElement.inserted then
    { self := { workers_ := insertedElement.map }
      value := false
      events := [Event.acquire, Event.access Access.emplace,
        Event.error "Failed to create worker [%s]" (api.name_ options), Event.release]
      destroyed := [] }
  else if api.autostart_ options then
    let started := api.start insertedElement.element none
    { self := { workers_ := WorkerMap.assign insertedElement.map (api.name_ options) started.1 }
      value := started.2
      events := [Event.acquire, Event.access Access.emplace,
        Event.start (api.name_ options) none, Event.release]
      destroyed := [] }
  else
    { self := { workers_ := insertedElement.map }
      value := true
      events := [Event.acquire, Event.access Access.emplace, Event.release]
      destroyed := [] }

/-- `WorkerManager::startWorker(const std::string& name, const int priority)`,
lines 81-88.  There is no `return` after the error report of line 85, so line 87
dereferences `workers_.end()` when the name is not found. -/
def startWorker (api : WorkerApi Opt W τ) (self : WorkerManager W) (name : String)
    (priority : Int) : Outcome W τ Unit :=
  match WorkerMap.find self.workers_ name with
  | none =>
    Outcome.undefinedBehaviour [Event.acquire, Event.access Access.find,
      Event.error "Cannot start worker [%s], worker not found" name]
  | some worker =>
    Outcome.returned
      { self := { workers_ :=
          WorkerMap.assign self.workers_ name (api.start worker (some priority)).1 }
        value := ()
        events := [Event.acquire, Event.access Access.find,
          Event.start name (some priority), Event.release]
        destroyed := [] }

/-- `WorkerManager::startWorkers()`, lines 90-94: no `lock_guard` is constructed. -/
def startWorkers (api : WorkerApi Opt W τ) (self : WorkerManager W) : Returned W τ Unit :=
  { self := { workers_ :=
      self.workers_.map (fun worker => (worker.1, (api.start worker.2 none).1)) }
    value := ()
    events := Event.access Access.iterate ::
      self.workers_.map (fun worker => Event.start worker.1 none)
    destroyed := [] }

/-- `WorkerManager::stopWorker(const std::string& name, const bool wait)`,
lines 96-103; as in `startWorker` the not-found branch falls through to the
dereference of line 102. -/
def stopWorker (api : WorkerApi Opt W τ) (self : WorkerManager W) (name : String)
    (wait : Bool) : Outcome W τ Unit :=
  match WorkerMap.find self.workers_ name with
  | none =>
    Outcome.undefinedBehaviour [Event.acquire, Event.access Access.find,
      Event.error "Cannot stop worker [%s], worker not found" name]
  | some worker =>
    Outcome.returned
      { self := { workers_ := WorkerMap.assign self.workers_ name (api.stop worker wait) }
        value := ()
        events := [Event.acquire, Event.access Access.find, Event.stop name wait,
          Event.release]
        destroyed := [] }

/-- `WorkerManager::stopWorkers(const bool wait)`, lines 105-109: no `lock_guard`
is constructed. -/
def stopWorkers (api : WorkerApi Opt W τ) (self : WorkerManager W) (wait : Bool) :
    Returned W τ Unit :=
  { self := { workers_ := self.workers_.map (fun worker => (worker.1, api.stop worker.2 wait)) }
    value := ()
    events := Event.access Access.iterate ::
      self.workers_.map (fun worker => Event.stop worker.1 wait)
    destroyed := [] }

/-- `WorkerManager::setWorkerTimestep(const std::string& name, const double timeStep)`,
lines 111-118; the not-found branch falls through to the dereference of line 117. -/
def setWorkerTimestep (api : WorkerApi Opt W τ) (self : WorkerManager W) (name : String)
    (timeStep : τ) : Outcome W τ Unit :=
  match WorkerMap.find self.workers_ name with
  | none =>
    Outcome.undefinedBehaviour [Event.acquire, Event.access Access.find,
      Event.error "Cannot change timestep of worker [%s], worker not found" name]
  | some worker =>
    Outcome.returned
      { self := { workers_ :=
          WorkerMap.assign self.workers_ name (api.setTimestep worker timeStep) }
        value := ()
        events := [Event.acquire, Event.access Access.find, Event.setTimestep name timeStep,
          Event.release]
        destroyed := [] }

/-- `WorkerManager::clearWorkers()`, lines 120-130: the loop of lines 124-126 calls
`stop(false)` on every worker, then `workers_.clear()` runs the destructor of every
worker. -/
def clearWorkers (api : WorkerApi Opt W τ) (self : WorkerManager W) : Returned W τ Unit :=
  let signalled : WorkerMap W :=
    self.workers_.map (fun worker => (worker.1, api.stop worker.2 false))
  { self := { workers_ := [] }
    value := ()
    events := [Event.acquire, Event.access Access.iterate]
      ++ self.workers_.map (fun worker => Event.stop worker.1 false)
      ++ [Event.access Access.clear]
      ++ signalled.map (fun worker => Event.destroy worker.1)
      ++ [Event.release]
    destroyed := signalled.map (fun worker => (worker.1, api.destroy worker.2)) }

/-- `WorkerManager::~WorkerManager()`, lines 54-56. -/
def WorkerManager.dtor (api : WorkerApi Opt W τ) (self : WorkerManager W) :
    Returned W τ Unit :=
  clearWorkers api self

/-- What the loop of lines 134-140 leaves behind. -/
structure Swept (W τ : Type) where
  kept : WorkerMap W
  events : List (Event τ)
  destroyed : List (String × W)

/-- The loop of `cleanDestructibleWorkers`, lines 134-140, started with the
iterator `it` at the head of the argument: a destructible element is erased (its
destructor runs) and `it` is the iterator `erase` returns, any other element is
stepped over. -/
def eraseLoop (api : WorkerApi Opt W τ) : WorkerMap W → Swept W τ
  | [] => { kept := [], events := [], destroyed := [] }
  | (key, worker) :: rest =>
    let tail := eraseLoop api rest
    if api.isDestructible worker then
      { kept := tail.kept
        events := Event.isDestructible key :: Event.access Access.erase ::
          Event.destroy key :: tail.events
        destroyed := (key, api.destroy worker) :: tail.destroyed }
    else
      { kept := (key, worker) :: tail.kept
        events := Event.isDestructible key :: tail.events
        destroyed := tail.destroyed }

/-- `WorkerManager::cleanDestructibleWorkers()`, lines 132-141. -/
def cleanDestructibleWorkers (api : WorkerApi Opt W τ) (self : WorkerManager W) :
    Returned W τ Unit :=
  let swept := eraseLoop api self.workers_
  { self := { workers_ := swept.kept }
    value := ()
    events := [Event.acquire, Event.access Access.iterate] ++ swept.events ++ [Event.release]
    destroyed := swept.destroyed }

end Operations

/-! ## Sequences of calls -/

section Sequences

variable {Opt W τ : Type}

/-- The calls of the public interface of `WorkerManager`. -/
inductive Op (Opt τ : Type) where
  | addWorker (options : Opt)
  | startWorker (name : String) (priority : Int)
  | startWorkers
  | stopWorker (name : String) (wait : Bool)
  | stopWorkers (wait : Bool)
  | setWorkerTimestep (name : String) (timeStep : τ)
  | clearWorkers
  | cleanDestructibleWorkers

/-- The name a call addresses, for the calls that look a worker up by name. -/
def Op.target : Op Opt τ → Option String
  | Op.startWorker name _ => some name
  | Op.stopWorker name _ => some name
  | Op.setWorkerTimestep name _ => some name
  | _ => none

/-- The object a returning call leaves; `none` when the call has no defined
behaviour. -/
def Outcome.after {α : Type} : Outcome W τ α → Option (WorkerManager W)
  | Outcome.returned r => some r.self
  | Outcome.undefinedBehaviour _ => none

/-- One call on the object `self`. -/
def step (api : WorkerApi Opt W τ) (self : WorkerManager W) : Op Opt τ → Option (WorkerManager W)
  | Op.addWorker options => some (addWorker api self options).self
  | Op.startWorker name priority => (startWorker api self name priority).after
  | Op.startWorkers => some (startWorkers api self).self
  | Op.stopWorker name wait => (stopWorker api self name wait).after
  | Op.stopWorkers wait => some (stopWorkers api self wait).self
  | Op.setWorkerTimestep name timeStep => (setWorkerTimestep api self name timeStep).after
  | Op.clearWorkers => some (clearWorkers api self).self
  | Op.cleanDestructibleWorkers => some (cleanDestructibleWorkers api self).self

/-- A sequence of calls, one after the other, on the object `self`. -/
def run (api : WorkerApi Opt W τ) (self : WorkerManager W) : List (Op Opt τ) → Option (WorkerManager W)
  | [] => some self
  | op :: ops =>
    match step api self op with
    | some next => run api next ops
    | none => none

/-- The `addWorker` calls for `calls`, in the order in which the mutex admits
them: the object afterwards and the value each call returned. -/
def addWorkers (api : WorkerApi Opt W τ) (self : WorkerManager W) :
    List Opt → WorkerManager W × List Bool
  | [] => (self, [])
  | options :: calls =>
    let first := addWorker api self options
    let others := addWorkers api first.self calls
    (others.1, first.value :: others.2)

/-- The worker `addWorker` leaves under a name it inserts: `Worker(options)`, started
by `start()` when `options.autostart_` is set (lines 60-67). -/
def newEntry (api : WorkerApi Opt W τ) (options : Opt) : W :=
  if api.autostart_ options then (api.start (api.construct options) none).1
  else api.construct options

/-- The value `addWorker` returns after an insertion: what `start()` returned when
`options.autostart_` is set, `true` otherwise (lines 65-68). -/
def newEntryValue (api : WorkerApi Opt W τ) (options : Opt) : Bool :=
  if api.autostart_ options then (api.start (api.construct options) none).2 else true

/-- The events of an `addWorker` call that inserts. -/
def newEntryEvents (api : WorkerApi Opt W τ) (options : Opt) : List (Event τ) :=
  if api.autostart_ options then
    [Event.acquire, Event.access Access.emplace, Event.start (api.name_ options) none,
      Event.release]
  else [Event.acquire, Event.access Access.emplace, Event.release]

/-- The container `after` is `before` with the worker under `name` replaced by
`worker`: same keys in the same order, `worker` under `name`, and every entry
under another name as before. -/
def UpdatesOnly (before after : WorkerMap W) (name : String) (worker : W) : Prop :=
  WorkerMap.keys after = WorkerMap.keys before ∧
  WorkerMap.find after name = some worker ∧
  (∀ other, other ≠ name → WorkerMap.find after other = WorkerMap.find before other) ∧
  (∀ entry : String × W, entry.1 ≠ name → (entry ∈ after ↔ entry ∈ before))

/-- The registry invariant of §3: every worker has the name it is keyed under,
and no two entries share a key. -/
def RegistryInvariant (api : WorkerApi Opt W τ) (self : WorkerManager W) : Prop :=
  (∀ entry ∈ self.workers_, api.getName entry.2 = entry.1) ∧
  (WorkerMap.keys self.workers_).Nodup

/-- §3, "a Worker's name never changes after construction": a worker is constructed
with the name of its options, and `start`, `stop` and `setTimestep` keep it. -/
def KeepsName (api : WorkerApi Opt W τ) : Prop :=
  (∀ options, api.getName (api.construct options) = api.name_ options) ∧
  (∀ w priority, api.getName (api.start w priority).1 = api.getName w) ∧
  (∀ w wait, api.getName (api.stop w wait) = api.getName w) ∧
  (∀ w timeStep, api.getName (api.setTimestep w timeStep) = api.getName w)

end Sequences

/-! ## A reference worker -/

/-- Modelled from the spec: `WorkerOptions` is not among the sources.  §3 and §6:
name, timestep, priority, autostart flag and callback; `κ` is the type of the
callback. -/
structure WorkerOptions (τ κ : Type) where
  name_ : String
  timestep : τ
  priority : Int
  autostart_ : Bool
  callback : κ
  deriving DecidableEq

/-- Modelled from the spec: the states of a worker, §4.2. -/
inductive Lifecycle where
  | idle
  | running
  | stopRequested
  | terminated
  deriving DecidableEq, Repr

/-- Modelled from the spec: `Worker` is not among the sources.  §3: its name, its
current timestep, its running/stopped state; priority and callback are copied from
the options at construction. -/
structure Worker (τ κ : Type) where
  name : String
  timestep : τ
  priority : Int
  callback : κ
  state : Lifecycle
  deriving DecidableEq

namespace Worker

variable {τ κ : Type}

/-- Modelled from the spec: construction copies the options; the worker is Idle. -/
def construct (options : WorkerOptions τ κ) : Worker τ κ :=
  { name := options.name_
    timestep := options.timestep
    priority := options.priority
    callback := options.callback
    state := Lifecycle.idle }

/-- Modelled from the spec: §4.2 "`start` transitions Idle/Terminated→Running
(spawns/respawns the thread); calling start while already Running is a no-op";
§7 "StartFailure — underlying thread/resource creation fails; propagated as a
boolean failure".  `threadCreation` says whether the system grants a thread. -/
def start (threadCreation : Bool) (w : Worker τ κ) (_priority : Option Int) : Worker τ κ × Bool :=
  match w.state with
  | Lifecycle.idle => if threadCreation then ({ w with state := Lifecycle.running }, true) else (w, false)
  | Lifecycle.terminated =>
    if threadCreation then ({ w with state := Lifecycle.running }, true) else (w, false)
  | Lifecycle.running => (w, true)
  | Lifecycle.stopRequested => (w, true)

/-- Modelled from the spec: §4.2 "`stop(wait=false)` transitions Running→StopRequested
and returns immediately; `stop(wait=true)` additionally blocks until Terminated". -/
def stop (w : Worker τ κ) (wait : Bool) : Worker τ κ :=
  match w.state with
  | Lifecycle.running =>
    if wait then { w with state := Lifecycle.terminated }
    else { w with state := Lifecycle.stopRequested }
  | Lifecycle.stopRequested => if wait then { w with state := Lifecycle.terminated } else w
  | Lifecycle.idle => w
  | Lifecycle.terminated => w

/-- Modelled from the spec: §4.2 "`setTimestep` is safe to call from any state and
takes effect on the next scheduled iteration". -/
def setTimestep (w : Worker τ κ) (timeStep : τ) : Worker τ κ :=
  { w with timestep := timeStep }

/-- Modelled from the spec: §4.2 "Terminated (thread has exited; destructible
becomes true)". -/
def isDestructible (w : Worker τ κ) : Bool :=
  decide (w.state = Lifecycle.terminated)

/-- Modelled from the spec: §9 "destruction must request stop and join". -/
def destroy (w : Worker τ κ) : Worker τ κ :=
  stop w true

/-- Modelled from the spec: a thread exists and has not exited in the states
Running and StopRequested. -/
def threadLive (w : Worker τ κ) : Bool :=
  decide (w.state = Lifecycle.running) || decide (w.state = Lifecycle.stopRequested)

end Worker

/-- Modelled from the spec: the worker of §3 and §4.2 as an implementation of
`WorkerApi`, in a system where thread creation succeeds (`threadCreation = true`)
or fails. -/
def specWorker (τ κ : Type) (threadCreation : Bool) :
    WorkerApi (WorkerOptions τ κ) (Worker τ κ) τ :=
  { name_ := fun options => options.name_
    autostart_ := fun options => options.autostart_
    construct := Worker.construct
    start := Worker.start threadCreation
    stop := Worker.stop
    setTimestep := Worker.setTimestep
    isDestructible := Worker.isDestructible
    destroy := Worker.destroy
    getName := fun w => w.name
    threadLive := Worker.threadLive }

/-- Options for a worker `name` with timestep 100 and priority 0. -/
def sampleOptions (name : String) (autostart : Bool) : WorkerOptions Nat Unit :=
  { name_ := name, timestep := 100, priority := 0, autostart_ := autostart, callback := () }

/-- The reference worker in a system that grants threads. -/
def sampleApi : WorkerApi (WorkerOptions Nat Unit) (Worker Nat Unit) Nat :=
  specWorker Nat Unit true

/-- The reference worker in a system where thread creation fails. -/
def failingApi : WorkerApi (WorkerOptions Nat Unit) (Worker Nat Unit) Nat :=
  specWorker Nat Unit false

/-- A running worker named "A". -/
def sampleWorker : Worker Nat Unit :=
  { name := "A", timestep := 100, priority := 0, callback := (), state := Lifecycle.running }

/-- A registry holding the running worker under the name "A". -/
def sampleManager : WorkerManager (Worker Nat Unit) :=
  { workers_ := [("A", sampleWorker)] }

/-- A sequence of calls on a new manager: "A" is added and started, "B" is added, a
second "A" is refused, "B" gets the timestep 50, both are started, both are
signalled to stop, "A" is stopped and joined, and "A" is reclaimed. -/
def sampleCalls : List (Op (WorkerOptions Nat Unit) Nat) :=
  [Op.addWorker (sampleOptions "A" true), Op.addWorker (sampleOptions "B" false),
    Op.addWorker (sampleOptions "A" false), Op.setWorkerTimestep "B" 50,
    Op.startWorkers, Op.stopWorkers false, Op.stopWorker "A" true,
    Op.startWorker "B" 3, Op.cleanDestructibleWorkers]

/-- The registry after `sampleCalls`: "B" alone, with timestep 50, asked to stop. -/
def sampleLast : WorkerManager (Worker Nat Unit) :=
  { workers_ :=
      [("B", { name := "B", timestep := 50, priority := 0, callback := (),
               state := Lifecycle.stopRequested })] }

end any_worker

/-! ## Facts about the container -/

namespace any_worker

namespace WorkerMap

variable {W : Type}

theorem find_eq_none_iff (m : WorkerMap W) (name : String) :
    find m name = none ↔ name ∉ keys m := by
  induction m with
  | nil => simp [find, keys]
  | cons entry rest ih =>
    obtain ⟨key, worker⟩ := entry
    by_cases h : key = name
    · simp [find, keys, h]
    · have hne : ¬ name = key := fun e => h e.symm
      simpa [find, keys, h, hne] using ih

theorem find_isSome_iff (m : WorkerMap W) (name : String) :
    (∃ worker, find m name = some worker) ↔ name ∈ keys m := by
  constructor
  · rintro ⟨worker, hw⟩
    by_contra hnot
    rw [(find_eq_none_iff m name).mpr hnot] at hw
    cases hw
  · intro hmem
    cases hfind : find m name with
    | none => exact absurd hmem ((find_eq_none_iff m name).mp hfind)
    | some worker => exact ⟨worker, rfl⟩

theorem find_mem (m : WorkerMap W) (name : String) (worker : W)
    (h : find m name = some worker) : (name, worker) ∈ m := by
  induction m with
  | nil => simp [find] at h
  | cons entry rest ih =>
    obtain ⟨key, old⟩ := entry
    by_cases hk : key = name
    · simp [find, hk] at h
      simp [hk, h]
    · simp [find, hk] at h
      exact List.mem_cons_of_mem _ (ih h)

theorem find_append (m n : WorkerMap W) (name : String) :
    find (m ++ n) name = (find m name).orElse (fun _ => find n name) := by
  induction m with
  | nil => simp [find]
  | cons entry rest ih =>
    obtain ⟨key, worker⟩ := entry
    by_cases h : key = name
    · simp [find, h]
    · simpa [find, h] using ih

theorem keys_append (m n : WorkerMap W) : keys (m ++ n) = keys m ++ keys n := by
  simp [keys]

theorem keys_assign (m : WorkerMap W) (name : String) (worker : W) :
    keys (assign m name worker) = keys m := by
  induction m with
  | nil => simp [assign]
  | cons entry rest ih =>
    obtain ⟨key, old⟩ := entry
    by_cases h : key = name
    · simp [assign, keys, h]
    · simpa [assign, keys, h] using ih

theorem find_assign_self (m : WorkerMap W) (name : String) (worker : W)
    (h : name ∈ keys m) : find (assign m name worker) name = some worker := by
  induction m with
  | nil => simp [keys] at h
  | cons entry rest ih =>
    obtain ⟨key, old⟩ := entry
    by_cases hk : key = name
    · simp [assign, find, hk]
    · have hrest : name ∈ keys rest := by
        have hne : ¬ name = key := fun e => hk e.symm
        simpa [keys, hne] using h
      simpa [assign, find, hk] using ih hrest

theorem find_assign_other (m : WorkerMap W) (name other : String) (worker : W)
    (h : other ≠ name) : find (assign m name worker) other = find m other := by
  induction m with
  | nil => simp [assign]
  | cons entry rest ih =>
    obtain ⟨key, old⟩ := entry
    by_cases hk : key = name
    · subst hk
      have hko : ¬ key = other := fun e => h e.symm
      simp [assign, find, hko]
    · by_cases hko : key = other
      · subst hko
        simp [assign, find, hk]
      · simpa [assign, find, hk, hko] using ih

theorem mem_assign_other (m : WorkerMap W) (name : String) (worker : W)
    (entry : String × W) (h : entry.1 ≠ name) :
    entry ∈ assign m name worker ↔ entry ∈ m := by
  induction m with
  | nil => simp [assign]
  | cons head rest ih =>
    obtain ⟨key, old⟩ := head
    obtain ⟨ekey, eworker⟩ := entry
    by_cases hk : key = name
    · subst hk
      have hne : ¬ ekey = key := h
      simp [assign, hne]
    · simp only [assign, hk, if_false, List.mem_cons, ih]

theorem assign_append_fresh (m : WorkerMap W) (name : String) (old worker : W)
    (h : name ∉ keys m) :
    assign (m ++ [(name, old)]) name worker = m ++ [(name, worker)] := by
  induction m with
  | nil => simp [assign]
  | cons entry rest ih =>
    obtain ⟨key, w⟩ := entry
    have hk : ¬ key = name := by
      intro e
      exact h (by simp [keys, e])
    have hrest : name ∉ keys rest := by
      intro hmem
      exact h (by simp [keys] at hmem ⊢; exact Or.inr hmem)
    simpa [assign, hk] using ih hrest

end WorkerMap

end any_worker

/-! ## `addWorker` -/

namespace any_worker

open WorkerMap

section AddWorker

variable {Opt W τ : Type}

theorem addWorker_of_mem (api : WorkerApi Opt W τ) (self : WorkerManager W) (options : Opt)
    (h : api.name_ options ∈ keys self.workers_) :
    addWorker api self options =
      { self := self
        value := false
        events := [Event.acquire, Event.access Access.emplace,
          Event.error "Failed to create worker [%s]" (api.name_ options), Event.release]
        destroyed := [] } := by
  obtain ⟨existing, hfind⟩ := (find_isSome_iff self.workers_ (api.name_ options)).mpr h
  simp [addWorker, emplace, hfind]

theorem addWorker_of_not_mem (api : WorkerApi Opt W τ) (self : WorkerManager W) (options : Opt)
    (h : api.name_ options ∉ keys self.workers_) :
    addWorker api self options =
      { self := { workers_ := self.workers_ ++ [(api.name_ options, newEntry api options)] }
        value := newEntryValue api options
        events := newEntryEvents api options
        destroyed := [] } := by
  have hfind := (find_eq_none_iff self.workers_ (api.name_ options)).mpr h
  by_cases hauto : api.autostart_ options = true
  · simp [addWorker, emplace, hfind, hauto, newEntry, newEntryValue, newEntryEvents,
      assign_append_fresh _ _ _ _ h]
  · simp [addWorker, emplace, hfind, hauto, newEntry, newEntryValue, newEntryEvents]

theorem find_append_new (m : WorkerMap W) (name : String) (worker : W) (h : name ∉ keys m) :
    find (m ++ [(name, worker)]) name = some worker := by
  simp [find_append, (find_eq_none_iff m name).mpr h, find]

theorem find_append_other (m : WorkerMap W) (name other : String) (worker : W)
    (h : other ≠ name) : find (m ++ [(name, worker)]) other = find m other := by
  have hne : ¬ name = other := fun e => h e.symm
  rw [find_append]
  cases find m other <;> simp [find, hne]

/-- C1. `addWorker` with a name that is already a key returns false and leaves the
registry as it is (same entries, each with the worker it had); it reports the error
and releases the mutex, calls no member of any worker (no `start`), and destroys no
stored worker. -/
theorem addWorker_duplicate_rejected (api : WorkerApi Opt W τ) (self : WorkerManager W)
    (options : Opt) (h : api.name_ options ∈ keys self.workers_) :
    (addWorker api self options).value = false ∧
    (addWorker api self options).self = self ∧
    keys (addWorker api self options).self.workers_ = keys self.workers_ ∧
    find (addWorker api self options).self.workers_ (api.name_ options) =
      find self.workers_ (api.name_ options) ∧
    (addWorker api self options).events =
      [Event.acquire, Event.access Access.emplace,
        Event.error "Failed to create worker [%s]" (api.name_ options), Event.release] ∧
    (∀ e ∈ (addWorker api self options).events, Event.isStartOrStop e = false) ∧
    (addWorker api self options).destroyed = [] := by
  rw [addWorker_of_mem api self options h]
  refine ⟨rfl, rfl, rfl, rfl, rfl, ?_, rfl⟩
  intro e he
  simp only [List.mem_cons, List.mem_singleton, List.not_mem_nil, or_false] at he
  rcases he with rfl | rfl | rfl | rfl <;> rfl

/-- C2. `addWorker` with a name that is not a key inserts exactly one entry, keyed
by `options.name_` and holding `Worker(options)` (started by `start()` when
`autostart_` is set); the former entries stay as they were, in their order, and
every other name resolves as before.  It returns true when `autostart_` is false and
the result of that `start()` when it is true. -/
theorem addWorker_fresh_inserts (api : WorkerApi Opt W τ) (self : WorkerManager W)
    (options : Opt) (h : api.name_ options ∉ keys self.workers_) :
    List.Perm (addWorker api self options).self.workers_
      ((api.name_ options, newEntry api options) :: self.workers_) ∧
    List.Sublist self.workers_ (addWorker api self options).self.workers_ ∧
    find (addWorker api self options).self.workers_ (api.name_ options) =
      some (newEntry api options) ∧
    (∀ other, other ≠ api.name_ options →
      find (addWorker api self options).self.workers_ other = find self.workers_ other) ∧
    (api.autostart_ options = false →
      (addWorker api self options).value = true ∧
      newEntry api options = api.construct options ∧
      (addWorker api self options).events =
        [Event.acquire, Event.access Access.emplace, Event.release]) ∧
    (api.autostart_ options = true →
      (addWorker api self options).value = (api.start (api.construct options) none).2 ∧
      newEntry api options = (api.start (api.construct options) none).1 ∧
      (addWorker api self options).events =
        [Event.acquire, Event.access Access.emplace,
          Event.start (api.name_ options) none, Event.release]) ∧
    (addWorker api self options).destroyed = [] := by
  rw [addWorker_of_not_mem api self options h]
  refine ⟨?_, List.sublist_append_left _ _, find_append_new _ _ _ h,
    fun other ho => find_append_other _ _ _ _ ho, ?_, ?_, rfl⟩
  · exact (List.perm_append_comm).trans (List.Perm.refl _)
  · intro hauto
    simp [newEntry, newEntryValue, newEntryEvents, hauto]
  · intro hauto
    simp [newEntry, newEntryValue, newEntryEvents, hauto]

/-- C10. When the name is fresh, `autostart_` is set and `start()` fails, `addWorker`
returns false although the registry has changed: the new entry stays under
`options.name_`, and a following `addWorker` with that name is rejected as a
duplicate and leaves the entry in place. -/
theorem addWorker_failed_autostart_keeps_entry (api : WorkerApi Opt W τ)
    (self : WorkerManager W) (options : Opt)
    (hfresh : api.name_ options ∉ keys self.workers_)
    (hauto : api.autostart_ options = true)
    (hfail : (api.start (api.construct options) none).2 = false) :
    (addWorker api self options).value = false ∧
    (addWorker api self options).self ≠ self ∧
    find (addWorker api self options).self.workers_ (api.name_ options) =
      some (api.start (api.construct options) none).1 ∧
    (∀ again, api.name_ again = api.name_ options →
      (addWorker api (addWorker api self options).self again).value = false ∧
      (addWorker api (addWorker api self options).self again).self =
        (addWorker api self options).self ∧
      find (addWorker api (addWorker api self options).self again).self.workers_
          (api.name_ options) = some (api.start (api.construct options) none).1) := by
  have hfind : find (addWorker api self options).self.workers_ (api.name_ options) =
      some (api.start (api.construct options) none).1 := by
    rw [addWorker_of_not_mem api self options hfresh]
    simpa [newEntry, hauto] using find_append_new self.workers_ (api.name_ options)
      (api.start (api.construct options) none).1 hfresh
  refine ⟨?_, ?_, hfind, ?_⟩
  · rw [addWorker_of_not_mem api self options hfresh]
    simp [newEntryValue, hauto, hfail]
  · rw [addWorker_of_not_mem api self options hfresh]
    intro heq
    have hlen := congrArg (fun s : WorkerManager W => s.workers_.length) heq
    simp at hlen
  · intro again hname
    have hmem : api.name_ again ∈ keys (addWorker api self options).self.workers_ := by
      rw [hname]
      exact (find_isSome_iff _ _).mp ⟨_, hfind⟩
    rw [addWorker_of_mem api _ again hmem]
    exact ⟨rfl, rfl, hfind⟩

end AddWorker

end any_worker

/-! ## Calls by name -/

namespace any_worker

open WorkerMap

section ByName

variable {Opt W τ : Type}

theorem updatesOnly_assign (m : WorkerMap W) (name : String) (worker : W)
    (h : name ∈ keys m) : UpdatesOnly m (assign m name worker) name worker :=
  ⟨keys_assign m name worker, find_assign_self m name worker h,
    fun other ho => find_assign_other m name other worker ho,
    fun entry he => mem_assign_other m name worker entry he⟩

theorem startWorker_of_find (api : WorkerApi Opt W τ) (self : WorkerManager W)
    (name : String) (worker : W) (priority : Int)
    (h : find self.workers_ name = some worker) :
    startWorker api self name priority =
      Outcome.returned
        { self :=
            { workers_ := assign self.workers_ name (api.start worker (some priority)).1 }
          value := ()
          events := [Event.acquire, Event.access Access.find,
            Event.start name (some priority), Event.release]
          destroyed := [] } := by
  simp only [startWorker, h]

theorem stopWorker_of_find (api : WorkerApi Opt W τ) (self : WorkerManager W)
    (name : String) (worker : W) (wait : Bool)
    (h : find self.workers_ name = some worker) :
    stopWorker api self name wait =
      Outcome.returned
        { self := { workers_ := assign self.workers_ name (api.stop worker wait) }
          value := ()
          events := [Event.acquire, Event.access Access.find, Event.stop name wait,
            Event.release]
          destroyed := [] } := by
  simp only [stopWorker, h]

theorem setWorkerTimestep_of_find (api : WorkerApi Opt W τ) (self : WorkerManager W)
    (name : String) (worker : W) (timeStep : τ)
    (h : find self.workers_ name = some worker) :
    setWorkerTimestep api self name timeStep =
      Outcome.returned
        { self :=
            { workers_ := assign self.workers_ name (api.setTimestep worker timeStep) }
          value := ()
          events := [Event.acquire, Event.access Access.find,
            Event.setTimestep name timeStep, Event.release]
          destroyed := [] } := by
  simp only [setWorkerTimestep, h]

/-- C3, as the code behaves.  For a name that is not a key, each of `startWorker`,
`stopWorker` and `setWorkerTimestep` acquires the mutex, looks the name up, reports
the error and then dereferences `workers_.end()`: the call has no defined behaviour
instead of being a no-op. -/
theorem notFound_dereferences_end (api : WorkerApi Opt W τ) (self : WorkerManager W)
    (name : String) (priority : Int) (wait : Bool) (timeStep : τ)
    (h : name ∉ keys self.workers_) :
    startWorker api self name priority =
      Outcome.undefinedBehaviour [Event.acquire, Event.access Access.find,
        Event.error "Cannot start worker [%s], worker not found" name] ∧
    stopWorker api self name wait =
      Outcome.undefinedBehaviour [Event.acquire, Event.access Access.find,
        Event.error "Cannot stop worker [%s], worker not found" name] ∧
    setWorkerTimestep api self name timeStep =
      Outcome.undefinedBehaviour [Event.acquire, Event.access Access.find,
        Event.error "Cannot change timestep of worker [%s], worker not found" name] := by
  have hfind := (find_eq_none_iff self.workers_ name).mpr h
  simp [startWorker, stopWorker, setWorkerTimestep, hfind]

/-- C9. For a name that is a key, `startWorker`, `stopWorker` and `setWorkerTimestep`
return, and the registry afterwards is the registry before with exactly the worker
under that name replaced by the result of `start(priority)`, `stop(wait)`,
`setTimestep(timeStep)` on it: same keys, every other entry as before.  The only
member call made is that one; `setWorkerTimestep` makes no `start` and no `stop`
call, and no worker is destroyed. -/
theorem byName_registered_updates_in_place (api : WorkerApi Opt W τ) (self : WorkerManager W)
    (name : String) (worker : W) (priority : Int) (wait : Bool) (timeStep : τ)
    (h : find self.workers_ name = some worker) :
    (∃ r, startWorker api self name priority = Outcome.returned r ∧
      UpdatesOnly self.workers_ r.self.workers_ name (api.start worker (some priority)).1 ∧
      r.events = [Event.acquire, Event.access Access.find,
        Event.start name (some priority), Event.release] ∧
      r.destroyed = []) ∧
    (∃ r, stopWorker api self name wait = Outcome.returned r ∧
      UpdatesOnly self.workers_ r.self.workers_ name (api.stop worker wait) ∧
      r.events = [Event.acquire, Event.access Access.find, Event.stop name wait,
        Event.release] ∧
      r.destroyed = []) ∧
    (∃ r, setWorkerTimestep api self name timeStep = Outcome.returned r ∧
      UpdatesOnly self.workers_ r.self.workers_ name (api.setTimestep worker timeStep) ∧
      r.events = [Event.acquire, Event.access Access.find,
        Event.setTimestep name timeStep, Event.release] ∧
      (∀ e ∈ r.events, Event.isStartOrStop e = false) ∧
      r.destroyed = []) := by
  have hmem : name ∈ keys self.workers_ := (find_isSome_iff _ _).mp ⟨worker, h⟩
  refine ⟨⟨_, startWorker_of_find api self name worker priority h,
      updatesOnly_assign _ _ _ hmem, rfl, rfl⟩,
    ⟨_, stopWorker_of_find api self name worker wait h,
      updatesOnly_assign _ _ _ hmem, rfl, rfl⟩,
    ⟨_, setWorkerTimestep_of_find api self name worker timeStep h,
      updatesOnly_assign _ _ _ hmem, rfl, ?_, rfl⟩⟩
  intro e he
  simp only [List.mem_cons, List.mem_singleton, List.not_mem_nil, or_false] at he
  rcases he with rfl | rfl | rfl | rfl <;> rfl

end ByName

/-! ## Removal of entries -/

section Removal

variable {Opt W τ : Type}

theorem eraseLoop_kept (api : WorkerApi Opt W τ) (m : WorkerMap W) :
    (eraseLoop api m : Swept W τ).kept = m.filter (fun entry => !api.isDestructible entry.2) := by
  induction m with
  | nil => rfl
  | cons entry rest ih =>
    obtain ⟨key, worker⟩ := entry
    by_cases h : api.isDestructible worker = true
    · simp [eraseLoop, h, ih]
    · simp [eraseLoop, h, ih]

theorem eraseLoop_destroyed (api : WorkerApi Opt W τ) (m : WorkerMap W) :
    (eraseLoop api m : Swept W τ).destroyed =
      (m.filter (fun entry => api.isDestructible entry.2)).map
        (fun entry => (entry.1, api.destroy entry.2)) := by
  induction m with
  | nil => rfl
  | cons entry rest ih =>
    obtain ⟨key, worker⟩ := entry
    by_cases h : api.isDestructible worker = true
    · simp [eraseLoop, h, ih]
    · simp [eraseLoop, h, ih]

/-- C4. `cleanDestructibleWorkers` leaves exactly the entries whose worker reports
`isDestructible() = false`: an entry is in the registry afterwards if and only if it
was there before, unchanged, and is not destructible; the entries left are in the
order they had; the destructor ran for exactly the destructible ones. -/
theorem cleanDestructibleWorkers_keeps_exactly_live (api : WorkerApi Opt W τ)
    (self : WorkerManager W) :
    (cleanDestructibleWorkers api self).self.workers_ =
      self.workers_.filter (fun entry => !api.isDestructible entry.2) ∧
    (∀ entry, entry ∈ (cleanDestructibleWorkers api self).self.workers_ ↔
      entry ∈ self.workers_ ∧ api.isDestructible entry.2 = false) ∧
    List.Sublist (cleanDestructibleWorkers api self).self.workers_ self.workers_ ∧
    (cleanDestructibleWorkers api self).destroyed =
      (self.workers_.filter (fun entry => api.isDestructible entry.2)).map
        (fun entry => (entry.1, api.destroy entry.2)) := by
  have hkept : (cleanDestructibleWorkers api self).self.workers_ =
      self.workers_.filter (fun entry => !api.isDestructible entry.2) :=
    eraseLoop_kept api self.workers_
  refine ⟨hkept, ?_, ?_, eraseLoop_destroyed api self.workers_⟩
  · intro entry
    rw [hkept]
    simp [List.mem_filter]
  · rw [hkept]
    exact List.filter_sublist _

/-- C5. `clearWorkers` calls `stop(false)` on every registered worker, in iteration
order, and only then runs the destructor of every entry; afterwards the registry is
empty, every worker that was registered has been destroyed, and, the destructor of a
worker joining its thread, no destroyed worker has a live thread.  The destructor of
the manager is the same call. -/
theorem clearWorkers_stops_then_destroys_all (api : WorkerApi Opt W τ)
    (self : WorkerManager W) (hjoin : ∀ w, api.threadLive (api.destroy w) = false) :
    (clearWorkers api self).self.workers_ = [] ∧
    (clearWorkers api self).events =
      [Event.acquire, Event.access Access.iterate]
        ++ (keys self.workers_).map (fun name => Event.stop name false)
        ++ [Event.access Access.clear]
        ++ (keys self.workers_).map (fun name => Event.destroy name)
        ++ [Event.release] ∧
    (clearWorkers api self).destroyed =
      self.workers_.map (fun entry => (entry.1, api.destroy (api.stop entry.2 false))) ∧
    (∀ entry ∈ self.workers_,
      (entry.1, api.destroy (api.stop entry.2 false)) ∈ (clearWorkers api self).destroyed) ∧
    (∀ gone ∈ (clearWorkers api self).destroyed, api.threadLive gone.2 = false) ∧
    WorkerManager.dtor api self = clearWorkers api self := by
  have hdestroyed : (clearWorkers api self).destroyed =
      self.workers_.map (fun entry => (entry.1, api.destroy (api.stop entry.2 false))) := by
    simp [clearWorkers, List.map_map, Function.comp_def]
  refine ⟨rfl, ?_, hdestroyed, ?_, ?_, rfl⟩
  · simp [clearWorkers, keys, List.map_map, Function.comp_def]
  · intro entry he
    rw [hdestroyed]
    exact List.mem_map.mpr ⟨entry, he, rfl⟩
  · intro gone hg
    rw [hdestroyed] at hg
    obtain ⟨entry, _, rfl⟩ := List.mem_map.mp hg
    exact hjoin _

end Removal

end any_worker

/-! ## The mutex -/

namespace any_worker

open WorkerMap

section Mutex

variable {Opt W τ : Type}

theorem lockedThroughout_append_inner (es rest : List (Event τ))
    (h : ∀ e ∈ es, Event.isMutexOp e = false) :
    lockedThroughout true (es ++ rest) = lockedThroughout true rest := by
  induction es with
  | nil => rfl
  | cons e es ih =>
    have hes : ∀ e ∈ es, Event.isMutexOp e = false :=
      fun x hx => h x (List.mem_cons_of_mem _ hx)
    have he := h e (List.mem_cons_self _ _)
    cases e <;> simp_all [lockedThroughout, Event.isMutexOp]

theorem eraseLoop_events_inner (api : WorkerApi Opt W τ) (m : WorkerMap W) :
    ∀ e ∈ (eraseLoop api m : Swept W τ).events, Event.isMutexOp e = false := by
  induction m with
  | nil => simp [eraseLoop]
  | cons entry rest ih =>
    obtain ⟨key, worker⟩ := entry
    intro e he
    by_cases h : api.isDestructible worker = true
    · have hev : (eraseLoop api ((key, worker) :: rest) : Swept W τ).events =
          Event.isDestructible key :: Event.access Access.erase :: Event.destroy key ::
            (eraseLoop api rest : Swept W τ).events := by
        simp [eraseLoop, h]
      rw [hev] at he
      simp only [List.mem_cons] at he
      rcases he with he | he | he | he
      · rw [he]; rfl
      · rw [he]; rfl
      · rw [he]; rfl
      · exact ih e he
    · have hev : (eraseLoop api ((key, worker) :: rest) : Swept W τ).events =
          Event.isDestructible key :: (eraseLoop api rest : Swept W τ).events := by
        simp [eraseLoop, h]
      rw [hev] at he
      simp only [List.mem_cons] at he
      rcases he with he | he
      · rw [he]; rfl
      · exact ih e he

/-- The member functions that construct a `lock_guard` hold the mutex at every
structural access to `workers_`: `addWorker`, `clearWorkers`,
`cleanDestructibleWorkers`, and `startWorker`, `stopWorker`, `setWorkerTimestep`
whether they return or not. -/
theorem guarded_calls_hold_mutex (api : WorkerApi Opt W τ) (self : WorkerManager W)
    (options : Opt) :
    lockedThroughout false (addWorker api self options).events = true ∧
    lockedThroughout false (clearWorkers api self).events = true ∧
    lockedThroughout false (cleanDestructibleWorkers api self).events = true := by
  refine ⟨?_, ?_, ?_⟩
  · by_cases h : api.name_ options ∈ keys self.workers_
    · rw [addWorker_of_mem api self options h]
      simp [lockedThroughout]
    · rw [addWorker_of_not_mem api self options h]
      by_cases hauto : api.autostart_ options = true
      · simp [newEntryEvents, hauto, lockedThroughout]
      · simp [newEntryEvents, hauto, lockedThroughout]
  · have hstop : ∀ e ∈ self.workers_.map (fun worker => (Event.stop worker.1 false : Event τ)),
        Event.isMutexOp e = false := by
      intro e he
      obtain ⟨entry, _, rfl⟩ := List.mem_map.mp he
      rfl
    have hdestroy : ∀ e ∈ (self.workers_.map
        (fun worker => (worker.1, api.stop worker.2 false))).map
          (fun worker => (Event.destroy worker.1 : Event τ)),
        Event.isMutexOp e = false := by
      intro e he
      obtain ⟨entry, _, rfl⟩ := List.mem_map.mp he
      rfl
    have hev : (clearWorkers api self).events =
        Event.acquire :: Event.access Access.iterate ::
          (self.workers_.map (fun worker => (Event.stop worker.1 false : Event τ)) ++
            (Event.access Access.clear ::
              ((self.workers_.map (fun worker => (worker.1, api.stop worker.2 false))).map
                (fun worker => (Event.destroy worker.1 : Event τ)) ++ [Event.release]))) := by
      simp [clearWorkers]
    rw [hev, lockedThroughout, lockedThroughout, lockedThroughout_append_inner _ _ hstop,
      lockedThroughout, lockedThroughout_append_inner _ _ hdestroy]
    rfl
  · have hev : (cleanDestructibleWorkers api self).events =
        Event.acquire :: Event.access Access.iterate ::
          ((eraseLoop api self.workers_ : Swept W τ).events ++ [Event.release]) := by
      simp [cleanDestructibleWorkers]
    rw [hev, lockedThroughout, lockedThroughout,
      lockedThroughout_append_inner _ _ (eraseLoop_events_inner api self.workers_)]
    rfl

/-- The calls by name hold the mutex at every structural access when they return. -/
theorem guarded_byName_calls_hold_mutex (api : WorkerApi Opt W τ) (self : WorkerManager W)
    (name : String) (priority : Int) (wait : Bool) (timeStep : τ) :
    (∀ r, startWorker api self name priority = Outcome.returned r →
      lockedThroughout false r.events = true) ∧
    (∀ r, stopWorker api self name wait = Outcome.returned r →
      lockedThroughout false r.events = true) ∧
    (∀ r, setWorkerTimestep api self name timeStep = Outcome.returned r →
      lockedThroughout false r.events = true) := by
  cases hfind : find self.workers_ name with
  | none =>
    refine ⟨?_, ?_, ?_⟩ <;> intro r hr <;>
      simp [startWorker, stopWorker, setWorkerTimestep, hfind] at hr
  | some worker =>
    refine ⟨?_, ?_, ?_⟩
    · intro r hr
      rw [startWorker_of_find api self name worker priority hfind] at hr
      cases hr
      simp [lockedThroughout]
    · intro r hr
      rw [stopWorker_of_find api self name worker wait hfind] at hr
      cases hr
      simp [lockedThroughout]
    · intro r hr
      rw [setWorkerTimestep_of_find api self name worker timeStep hfind] at hr
      cases hr
      simp [lockedThroughout]

/-- C6, as the code behaves.  `startWorkers()` and `stopWorkers(wait)` iterate over
`workers_` without holding the mutex: their first event is the iteration, no
`lock_guard` is constructed in either, so the access is made with the mutex free. -/
theorem sweeps_iterate_without_mutex (api : WorkerApi Opt W τ) (self : WorkerManager W)
    (wait : Bool) :
    lockedThroughout false (startWorkers api self).events = false ∧
    lockedThroughout false (stopWorkers api self wait).events = false ∧
    Event.acquire ∉ (startWorkers api self).events ∧
    Event.acquire ∉ (stopWorkers api self wait).events ∧
    (startWorkers api self).events.head? = some (Event.access Access.iterate) ∧
    (stopWorkers api self wait).events.head? = some (Event.access Access.iterate) := by
  refine ⟨?_, ?_, ?_, ?_, rfl, rfl⟩
  · simp [startWorkers, lockedThroughout]
  · simp [stopWorkers, lockedThroughout]
  · simp [startWorkers]
  · simp [stopWorkers]

end Mutex

end any_worker

/-! ## Several `addWorker` calls with distinct names -/

namespace any_worker

open WorkerMap

section Distinct

variable {Opt W τ : Type}

theorem find_map_entry (api : WorkerApi Opt W τ) (f : Opt → W) (calls : List Opt)
    (hdistinct : (calls.map api.name_).Nodup) (options : Opt) (hmem : options ∈ calls) :
    find (calls.map (fun o => (api.name_ o, f o))) (api.name_ options) = some (f options) := by
  induction calls with
  | nil => simp at hmem
  | cons first rest ih =>
    have hnd : api.name_ first ∉ rest.map api.name_ ∧ (rest.map api.name_).Nodup :=
      List.nodup_cons.mp hdistinct
    rcases List.mem_cons.mp hmem with heq | hrest
    · subst heq
      simp [find]
    · have hne : ¬ api.name_ first = api.name_ options := by
        intro e
        exact hnd.1 (e ▸ List.mem_map.mpr ⟨options, hrest, rfl⟩)
      simpa [find, hne] using ih hnd.2 hrest

theorem addWorkers_eq (api : WorkerApi Opt W τ) (calls : List Opt) :
    ∀ self : WorkerManager W, (calls.map api.name_).Nodup →
      (∀ o ∈ calls, api.name_ o ∉ keys self.workers_) →
      addWorkers api self calls =
        ({ workers_ := self.workers_ ++ calls.map (fun o => (api.name_ o, newEntry api o)) },
          calls.map (newEntryValue api)) := by
  induction calls with
  | nil => intro self _ _; simp [addWorkers]
  | cons first rest ih =>
    intro self hdistinct hfresh
    have hnd : api.name_ first ∉ rest.map api.name_ ∧ (rest.map api.name_).Nodup :=
      List.nodup_cons.mp hdistinct
    have hfirst : api.name_ first ∉ keys self.workers_ := hfresh first (List.mem_cons_self _ _)
    have hnext : ∀ o ∈ rest, api.name_ o ∉
        keys (self.workers_ ++ [(api.name_ first, newEntry api first)]) := by
      intro o ho hmem
      rw [keys_append] at hmem
      rcases List.mem_append.mp hmem with h | h
      · exact hfresh o (List.mem_cons_of_mem _ ho) h
      · have : api.name_ o = api.name_ first := by simpa [keys] using h
        exact hnd.1 (this ▸ List.mem_map.mpr ⟨o, ho, rfl⟩)
    simp only [addWorkers]
    rw [addWorker_of_not_mem api self first hfirst]
    rw [ih _ hnd.2 hnext]
    simp

/-- C7, amended.  For `addWorker` calls with pairwise distinct names that are not
keys, made in any order: a call returns true when `autostart_` is unset and the
result of its `start()` when it is set, so all calls return true when no `start()`
fails; afterwards every one of the names is a key holding the worker built from its
own options, the keys are the former keys and the new names, and every former
entry is as before. -/
theorem addWorkers_distinct_all_inserted (api : WorkerApi Opt W τ) (self : WorkerManager W)
    (calls order : List Opt)
    (hdistinct : (calls.map api.name_).Nodup)
    (hfresh : ∀ o ∈ calls, api.name_ o ∉ keys self.workers_)
    (horder : List.Perm order calls) :
    (addWorkers api self order).2 = order.map (newEntryValue api) ∧
    ((∀ o ∈ calls, api.autostart_ o = true → (api.start (api.construct o) none).2 = true) →
      ∀ value ∈ (addWorkers api self order).2, value = true) ∧
    (∀ o ∈ calls, find (addWorkers api self order).1.workers_ (api.name_ o) =
      some (newEntry api o)) ∧
    List.Perm (keys (addWorkers api self order).1.workers_)
      (keys self.workers_ ++ calls.map api.name_) ∧
    (∀ name ∈ keys self.workers_,
      find (addWorkers api self order).1.workers_ name = find self.workers_ name) := by
  have hdistinct' : (order.map api.name_).Nodup :=
    (List.Perm.nodup_iff (List.Perm.map api.name_ horder)).mpr hdistinct
  have hfresh' : ∀ o ∈ order, api.name_ o ∉ keys self.workers_ :=
    fun o ho => hfresh o (horder.mem_iff.mp ho)
  rw [addWorkers_eq api order self hdistinct' hfresh']
  refine ⟨rfl, ?_, ?_, ?_, ?_⟩
  · intro hstart value hvalue
    obtain ⟨o, ho, rfl⟩ := List.mem_map.mp hvalue
    by_cases hauto : api.autostart_ o = true
    · simp [newEntryValue, hauto, hstart o (horder.mem_iff.mp ho) hauto]
    · simp [newEntryValue, hauto]
  · intro o ho
    show find (self.workers_ ++ order.map (fun o => (api.name_ o, newEntry api o)))
      (api.name_ o) = some (newEntry api o)
    rw [find_append, (find_eq_none_iff _ _).mpr (hfresh o ho)]
    exact find_map_entry api (newEntry api) order hdistinct' o (horder.mem_iff.mpr ho)
  · have hkeys : keys (self.workers_ ++ order.map (fun o => (api.name_ o, newEntry api o))) =
        keys self.workers_ ++ order.map api.name_ := by
      simp [keys, List.map_map, Function.comp_def]
    show List.Perm (keys (self.workers_ ++ order.map (fun o => (api.name_ o, newEntry api o))))
      (keys self.workers_ ++ calls.map api.name_)
    rw [hkeys]
    exact List.Perm.append_left _ (List.Perm.map api.name_ horder)
  · intro name hname
    show find (self.workers_ ++ order.map (fun o => (api.name_ o, newEntry api o))) name =
      find self.workers_ name
    obtain ⟨worker, hworker⟩ := (find_isSome_iff _ _).mpr hname
    rw [find_append, hworker]
    rfl

end Distinct

/-! ## The registry invariant -/

section Invariant

variable {Opt W τ : Type}

theorem mem_assign (m : WorkerMap W) (name : String) (worker : W) (entry : String × W)
    (h : entry ∈ assign m name worker) : entry = (name, worker) ∨ entry ∈ m := by
  induction m with
  | nil => simp [assign] at h
  | cons head rest ih =>
    obtain ⟨key, old⟩ := head
    by_cases hk : key = name
    · subst hk
      simp only [assign, if_true, List.mem_cons] at h
      rcases h with h | h
      · exact Or.inl h
      · exact Or.inr (List.mem_cons_of_mem _ h)
    · simp only [assign, hk, if_false, List.mem_cons] at h
      rcases h with h | h
      · exact Or.inr (h ▸ List.mem_cons_self _ _)
      · rcases ih h with h | h
        · exact Or.inl h
        · exact Or.inr (List.mem_cons_of_mem _ h)

theorem invariant_assign (api : WorkerApi Opt W τ) (self : WorkerManager W) (name : String)
    (worker : W) (hinv : RegistryInvariant api self) (hname : api.getName worker = name) :
    RegistryInvariant api { workers_ := assign self.workers_ name worker } := by
  refine ⟨?_, ?_⟩
  · intro entry he
    rcases mem_assign _ _ _ _ he with h | h
    · rw [h]; exact hname
    · exact hinv.1 entry h
  · show (keys (assign self.workers_ name worker)).Nodup
    rw [keys_assign]
    exact hinv.2

theorem invariant_map (api : WorkerApi Opt W τ) (self : WorkerManager W) (f : W → W)
    (hinv : RegistryInvariant api self) (hf : ∀ w, api.getName (f w) = api.getName w) :
    RegistryInvariant api
      { workers_ := self.workers_.map (fun worker => (worker.1, f worker.2)) } := by
  refine ⟨?_, ?_⟩
  · intro entry he
    obtain ⟨old, hold, rfl⟩ := List.mem_map.mp he
    simpa [hf] using hinv.1 old hold
  · have hkeys : keys (self.workers_.map (fun worker => (worker.1, f worker.2))) =
        keys self.workers_ := by
      simp [keys, List.map_map, Function.comp_def]
    show (keys (self.workers_.map (fun worker => (worker.1, f worker.2)))).Nodup
    rw [hkeys]
    exact hinv.2

theorem invariant_addWorker (api : WorkerApi Opt W τ) (self : WorkerManager W)
    (options : Opt) (hnames : KeepsName api) (hinv : RegistryInvariant api self) :
    RegistryInvariant api (addWorker api self options).self := by
  by_cases h : api.name_ options ∈ keys self.workers_
  · rw [addWorker_of_mem api self options h]
    exact hinv
  · rw [addWorker_of_not_mem api self options h]
    have hnew : api.getName (newEntry api options) = api.name_ options := by
      by_cases hauto : api.autostart_ options = true
      · simp [newEntry, hauto, hnames.2.1, hnames.1]
      · simp [newEntry, hauto, hnames.1]
    refine ⟨?_, ?_⟩
    · intro entry he
      rcases List.mem_append.mp he with h' | h'
      · exact hinv.1 entry h'
      · rw [List.mem_singleton.mp h']
        exact hnew
    · show (keys (self.workers_ ++ [(api.name_ options, newEntry api options)])).Nodup
      rw [keys_append]
      refine List.Nodup.append hinv.2 (by simp [keys]) ?_
      intro name h1 h2
      have : name = api.name_ options := by simpa [keys] using h2
      exact h (this ▸ h1)

theorem invariant_clean (api : WorkerApi Opt W τ) (self : WorkerManager W)
    (hinv : RegistryInvariant api self) :
    RegistryInvariant api (cleanDestructibleWorkers api self).self := by
  have hsub : List.Sublist (cleanDestructibleWorkers api self).self.workers_ self.workers_ := by
    show List.Sublist (eraseLoop api self.workers_ : Swept W τ).kept self.workers_
    rw [eraseLoop_kept]
    exact List.filter_sublist _
  refine ⟨fun entry he => hinv.1 entry (hsub.subset he), ?_⟩
  exact List.Nodup.sublist (List.Sublist.map Prod.fst hsub) hinv.2

/-- A call returns exactly when the name it looks up, if any, is a key. -/
theorem step_returns_iff (api : WorkerApi Opt W τ) (self : WorkerManager W) (op : Op Opt τ) :
    (∃ next, step api self op = some next) ↔
      ∀ name, Op.target op = some name → name ∈ keys self.workers_ := by
  cases op with
  | addWorker options => simp [step, Op.target]
  | startWorkers => simp [step, Op.target]
  | stopWorkers wait => simp [step, Op.target]
  | clearWorkers => simp [step, Op.target]
  | cleanDestructibleWorkers => simp [step, Op.target]
  | startWorker name priority =>
    cases hfind : find self.workers_ name with
    | none =>
      have hnot := (find_eq_none_iff _ _).mp hfind
      simp [step, startWorker, hfind, Outcome.after, Op.target, hnot]
    | some worker =>
      have hmem := (find_isSome_iff _ _).mp ⟨worker, hfind⟩
      simp [step, startWorker, hfind, Outcome.after, Op.target, hmem]
  | stopWorker name wait =>
    cases hfind : find self.workers_ name with
    | none =>
      have hnot := (find_eq_none_iff _ _).mp hfind
      simp [step, stopWorker, hfind, Outcome.after, Op.target, hnot]
    | some worker =>
      have hmem := (find_isSome_iff _ _).mp ⟨worker, hfind⟩
      simp [step, stopWorker, hfind, Outcome.after, Op.target, hmem]
  | setWorkerTimestep name timeStep =>
    cases hfind : find self.workers_ name with
    | none =>
      have hnot := (find_eq_none_iff _ _).mp hfind
      simp [step, setWorkerTimestep, hfind, Outcome.after, Op.target, hnot]
    | some worker =>
      have hmem := (find_isSome_iff _ _).mp ⟨worker, hfind⟩
      simp [step, setWorkerTimestep, hfind, Outcome.after, Op.target, hmem]

theorem invariant_step (api : WorkerApi Opt W τ) (hnames : KeepsName api)
    (self next : WorkerManager W) (op : Op Opt τ) (hinv : RegistryInvariant api self)
    (hstep : step api self op = some next) : RegistryInvariant api next := by
  cases op with
  | addWorker options =>
    simp only [step, Option.some.injEq] at hstep
    exact hstep ▸ invariant_addWorker api self options hnames hinv
  | startWorker name priority =>
    cases hfind : find self.workers_ name with
    | none => simp [step, startWorker, hfind, Outcome.after] at hstep
    | some worker =>
      simp only [step, startWorker_of_find api self name worker priority hfind,
        Outcome.after, Option.some.injEq] at hstep
      rw [← hstep]
      refine invariant_assign api self name _ hinv ?_
      rw [hnames.2.1]
      exact hinv.1 (name, worker) (find_mem _ _ _ hfind)
  | startWorkers =>
    simp only [step, Option.some.injEq] at hstep
    exact hstep ▸ invariant_map api self (fun w => (api.start w none).1) hinv
      (fun w => hnames.2.1 w none)
  | stopWorker name wait =>
    cases hfind : find self.workers_ name with
    | none => simp [step, stopWorker, hfind, Outcome.after] at hstep
    | some worker =>
      simp only [step, stopWorker_of_find api self name worker wait hfind,
        Outcome.after, Option.some.injEq] at hstep
      rw [← hstep]
      refine invariant_assign api self name _ hinv ?_
      rw [hnames.2.2.1]
      exact hinv.1 (name, worker) (find_mem _ _ _ hfind)
  | stopWorkers wait =>
    simp only [step, Option.some.injEq] at hstep
    exact hstep ▸ invariant_map api self (fun w => api.stop w wait) hinv
      (fun w => hnames.2.2.1 w wait)
  | setWorkerTimestep name timeStep =>
    cases hfind : find self.workers_ name with
    | none => simp [step, setWorkerTimestep, hfind, Outcome.after] at hstep
    | some worker =>
      simp only [step, setWorkerTimestep_of_find api self name worker timeStep hfind,
        Outcome.after, Option.some.injEq] at hstep
      rw [← hstep]
      refine invariant_assign api self name _ hinv ?_
      rw [hnames.2.2.2]
      exact hinv.1 (name, worker) (find_mem _ _ _ hfind)
  | clearWorkers =>
    simp only [step, Option.some.injEq] at hstep
    rw [← hstep]
    exact ⟨fun entry he => absurd he (List.not_mem_nil _), List.nodup_nil⟩
  | cleanDestructibleWorkers =>
    simp only [step, Option.some.injEq] at hstep
    exact hstep ▸ invariant_clean api self hinv

theorem invariant_run (api : WorkerApi Opt W τ) (hnames : KeepsName api)
    (ops : List (Op Opt τ)) :
    ∀ self last : WorkerManager W, RegistryInvariant api self →
      run api self ops = some last → RegistryInvariant api last := by
  induction ops with
  | nil =>
    intro self last hinv hrun
    simp only [run, Option.some.injEq] at hrun
    exact hrun ▸ hinv
  | cons op ops ih =>
    intro self last hinv hrun
    cases hstep : step api self op with
    | none => simp [run, hstep] at hrun
    | some next =>
      simp only [run, hstep] at hrun
      exact ih next last (invariant_step api hnames self next op hinv hstep) hrun

/-- C8. Starting from the registry the constructor creates, after any sequence of
calls of `addWorker`, `startWorker`, `startWorkers`, `stopWorker`, `stopWorkers`,
`setWorkerTimestep`, `clearWorkers` and `cleanDestructibleWorkers` that has returned,
every entry holds a worker with the name it is keyed under and no two entries share a
key, for workers that keep the name they were constructed with. -/
theorem registry_invariant_after_calls (api : WorkerApi Opt W τ) (hnames : KeepsName api)
    (ops : List (Op Opt τ)) (last : WorkerManager W)
    (hrun : run api WorkerManager.ctor ops = some last) :
    RegistryInvariant api last :=
  invariant_run api hnames ops WorkerManager.ctor last
    ⟨fun _ he => absurd he (List.not_mem_nil _), List.nodup_nil⟩ hrun

end Invariant

end any_worker

/-! ## Concrete instances -/

namespace any_worker

open WorkerMap

/-- The reference worker keeps the name it was constructed with. -/
theorem specWorker_keepsName (τ κ : Type) (threadCreation : Bool) :
    KeepsName (specWorker τ κ threadCreation) := by
  refine ⟨fun _ => rfl, ?_, ?_, fun _ _ => rfl⟩
  · intro w priority
    cases hs : w.state <;> cases threadCreation <;> simp [specWorker, Worker.start, hs]
  · intro w wait
    cases hs : w.state <;> cases wait <;> simp [specWorker, Worker.stop, hs]

/-- The destructor of the reference worker leaves no live thread. -/
theorem specWorker_destroy_joins (τ κ : Type) (threadCreation : Bool) (w : Worker τ κ) :
    (specWorker τ κ threadCreation).threadLive ((specWorker τ κ threadCreation).destroy w) =
      false := by
  cases hs : w.state <;>
    simp [specWorker, Worker.destroy, Worker.stop, Worker.threadLive, hs]

/-- A second `addWorker` for "A" on the registry holding "A". -/
theorem addWorker_duplicate_rejected_witness :
    sampleApi.name_ (sampleOptions "A" false) ∈ keys sampleManager.workers_ ∧
    (addWorker sampleApi sampleManager (sampleOptions "A" false)).value = false ∧
    (addWorker sampleApi sampleManager (sampleOptions "A" false)).self = sampleManager :=
  ⟨by decide,
    (addWorker_duplicate_rejected sampleApi sampleManager (sampleOptions "A" false)
      (by decide)).1,
    (addWorker_duplicate_rejected sampleApi sampleManager (sampleOptions "A" false)
      (by decide)).2.1⟩

/-- An `addWorker` for "B" with autostart on the registry holding "A". -/
theorem addWorker_fresh_inserts_witness :
    sampleApi.name_ (sampleOptions "B" true) ∉ keys sampleManager.workers_ ∧
    List.Perm (addWorker sampleApi sampleManager (sampleOptions "B" true)).self.workers_
      ((sampleApi.name_ (sampleOptions "B" true), newEntry sampleApi (sampleOptions "B" true))
        :: sampleManager.workers_) ∧
    find (addWorker sampleApi sampleManager (sampleOptions "B" true)).self.workers_
      (sampleApi.name_ (sampleOptions "B" true)) =
        some (newEntry sampleApi (sampleOptions "B" true)) :=
  ⟨by decide,
    (addWorker_fresh_inserts sampleApi sampleManager (sampleOptions "B" true) (by decide)).1,
    (addWorker_fresh_inserts sampleApi sampleManager (sampleOptions "B" true)
      (by decide)).2.2.1⟩

/-- The three calls by name for "A" on a new manager, whose registry is empty. -/
theorem notFound_dereferences_end_witness :
    "A" ∉ keys (WorkerManager.ctor : WorkerManager (Worker Nat Unit)).workers_ ∧
    startWorker sampleApi WorkerManager.ctor "A" 0 =
      Outcome.undefinedBehaviour [Event.acquire, Event.access Access.find,
        Event.error "Cannot start worker [%s], worker not found" "A"] ∧
    stopWorker sampleApi WorkerManager.ctor "A" true =
      Outcome.undefinedBehaviour [Event.acquire, Event.access Access.find,
        Event.error "Cannot stop worker [%s], worker not found" "A"] ∧
    setWorkerTimestep sampleApi WorkerManager.ctor "A" 50 =
      Outcome.undefinedBehaviour [Event.acquire, Event.access Access.find,
        Event.error "Cannot change timestep of worker [%s], worker not found" "A"] :=
  ⟨by decide, notFound_dereferences_end sampleApi WorkerManager.ctor "A" 0 true 50 (by decide)⟩

/-- The call `clearWorkers` on the registry holding the running worker "A". -/
theorem clearWorkers_stops_then_destroys_all_witness :
    (∀ w, sampleApi.threadLive (sampleApi.destroy w) = false) ∧
    (clearWorkers sampleApi sampleManager).self.workers_ = [] ∧
    (clearWorkers sampleApi sampleManager).events =
      [Event.acquire, Event.access Access.iterate]
        ++ (keys sampleManager.workers_).map (fun name => Event.stop name false)
        ++ [Event.access Access.clear]
        ++ (keys sampleManager.workers_).map (fun name => Event.destroy name)
        ++ [Event.release] :=
  ⟨specWorker_destroy_joins Nat Unit true,
    (clearWorkers_stops_then_destroys_all sampleApi sampleManager
      (specWorker_destroy_joins Nat Unit true)).1,
    (clearWorkers_stops_then_destroys_all sampleApi sampleManager
      (specWorker_destroy_joins Nat Unit true)).2.1⟩

/-- C7 as stated fails.  In a system where thread creation fails, the two calls
`addWorker` for "A" (autostart set) and "B" (autostart unset) on the empty registry
have distinct names that are not keys, yet the call for "A" returns false. -/
theorem addWorkers_distinct_not_all_true :
    ([sampleOptions "A" true, sampleOptions "B" false].map failingApi.name_).Nodup ∧
    (∀ o ∈ [sampleOptions "A" true, sampleOptions "B" false],
      failingApi.name_ o ∉ keys (WorkerManager.ctor : WorkerManager (Worker Nat Unit)).workers_) ∧
    (addWorkers failingApi WorkerManager.ctor
      [sampleOptions "A" true, sampleOptions "B" false]).2 = [false, true] ∧
    ¬ (∀ value ∈ (addWorkers failingApi WorkerManager.ctor
      [sampleOptions "A" true, sampleOptions "B" false]).2, value = true) := by
  refine ⟨by decide, by decide, by decide, ?_⟩
  intro h
  exact absurd (h false (by decide)) (by decide)

/-- The calls for "A" and "B" on a new manager, admitted in the order "B", "A". -/
theorem addWorkers_distinct_all_inserted_witness :
    ([sampleOptions "A" true, sampleOptions "B" false].map sampleApi.name_).Nodup ∧
    (∀ o ∈ [sampleOptions "A" true, sampleOptions "B" false],
      sampleApi.name_ o ∉ keys (WorkerManager.ctor : WorkerManager (Worker Nat Unit)).workers_) ∧
    List.Perm [sampleOptions "B" false, sampleOptions "A" true]
      [sampleOptions "A" true, sampleOptions "B" false] ∧
    (addWorkers sampleApi WorkerManager.ctor
      [sampleOptions "B" false, sampleOptions "A" true]).2 =
        [sampleOptions "B" false, sampleOptions "A" true].map (newEntryValue sampleApi) :=
  ⟨by decide, by decide, List.Perm.swap _ _ _,
    (addWorkers_distinct_all_inserted sampleApi WorkerManager.ctor
      [sampleOptions "A" true, sampleOptions "B" false]
      [sampleOptions "B" false, sampleOptions "A" true]
      (by decide) (by decide) (List.Perm.swap _ _ _)).1⟩

/-- The calls `sampleCalls` on a new manager return and leave `sampleLast`. -/
theorem registry_invariant_after_calls_witness :
    KeepsName sampleApi ∧
    run sampleApi WorkerManager.ctor sampleCalls = some sampleLast ∧
    RegistryInvariant sampleApi sampleLast :=
  ⟨specWorker_keepsName Nat Unit true, by decide,
    registry_invariant_after_calls sampleApi (specWorker_keepsName Nat Unit true)
      sampleCalls sampleLast (by decide)⟩

/-- The call `setWorkerTimestep("A", 50)` on the registry holding the running "A". -/
theorem byName_registered_updates_in_place_witness :
    find sampleManager.workers_ "A" = some sampleWorker ∧
    (∃ r, setWorkerTimestep sampleApi sampleManager "A" 50 = Outcome.returned r ∧
      UpdatesOnly sampleManager.workers_ r.self.workers_ "A"
        (sampleApi.setTimestep sampleWorker 50) ∧
      r.events = [Event.acquire, Event.access Access.find, Event.setTimestep "A" 50,
        Event.release] ∧
      (∀ e ∈ r.events, Event.isStartOrStop e = false) ∧
      r.destroyed = []) :=
  ⟨by decide,
    (byName_registered_updates_in_place sampleApi sampleManager "A" sampleWorker 0 true 50
      (by decide)).2.2⟩

/-- An `addWorker` for "A" with autostart where thread creation fails. -/
theorem addWorker_failed_autostart_keeps_entry_witness :
    failingApi.name_ (sampleOptions "A" true) ∉
      keys (WorkerManager.ctor : WorkerManager (Worker Nat Unit)).workers_ ∧
    failingApi.autostart_ (sampleOptions "A" true) = true ∧
    (failingApi.start (failingApi.construct (sampleOptions "A" true)) none).2 = false ∧
    (addWorker failingApi WorkerManager.ctor (sampleOptions "A" true)).value = false ∧
    (addWorker failingApi WorkerManager.ctor (sampleOptions "A" true)).self ≠
      WorkerManager.ctor ∧
    find (addWorker failingApi WorkerManager.ctor (sampleOptions "A" true)).self.workers_
      (failingApi.name_ (sampleOptions "A" true)) =
        some (failingApi.start (failingApi.construct (sampleOptions "A" true)) none).1 :=
  ⟨by decide, by decide, by decide,
    (addWorker_failed_autostart_keeps_entry failingApi WorkerManager.ctor
      (sampleOptions "A" true) (by decide) (by decide) (by decide)).1,
    (addWorker_failed_autostart_keeps_entry failingApi WorkerManager.ctor
      (sampleOptions "A" true) (by decide) (by decide) (by decide)).2.1,
    (addWorker_failed_autostart_keeps_entry failingApi WorkerManager.ctor
      (sampleOptions "A" true) (by decide) (by decide) (by decide)).2.2.1⟩

end any_worker
